import Mathlib

/-!
Verification of the time-series alignment and merge engine of
src/app/api/btc-price/route.ts (btc_chart repository).

Shallow embedding conventions:
* JS numbers that hold epoch timestamps are modelled as Int (they are
  integral in the source); metric/price values are modelled as Rat.
* Math.round(x) in JS is round-half-up, i.e. the floor of x + 1/2.
* A JS Map with numeric keys is modelled as an insertion-ordered
  association list; Map.set overwrites in place, Map.get returns Option.
* Fallible values (null) are modelled with Option.
* The while loop of the binary search in lookupRP is modelled with an
  explicit iteration bound (fuel); the bound hi + 1 - lo dominates the
  number of iterations because lo strictly increases or hi strictly
  decreases on every pass.
-/

set_option maxRecDepth 8000

/-- JS Math.round: round half toward positive infinity. -/
def jround (q : ℚ) : Int := ⌊q + 1/2⌋

/-- Truncation of an epoch-milliseconds timestamp to midnight UTC,
as performed by new Date(ts).setUTCHours(0,0,0,0). -/
def dayTrunc (ts : Int) : Int := 86400000 * (ts.fdiv 86400000)

/-- One point of the Blockchain.info historical series: x unix-seconds, y USD. -/
structure HPoint where
  x : Int
  y : ℚ
deriving DecidableEq

/-- Raw BGeometrics series: [timestampMs, value] pairs. -/
abbrev RawSeries := List (Int × ℚ)

/-- Map.get for the association-list model of a JS Map. -/
def mapGet (m : List (Int × ℚ)) (k : Int) : Option ℚ :=
  (m.find? (fun p => p.1 == k)).map (·.2)

/-- Map.set for the association-list model: overwrite in place if the key
exists, otherwise append (JS Maps preserve insertion order). -/
def mapSet (m : List (Int × ℚ)) (k : Int) (v : ℚ) : List (Int × ℚ) :=
  if m.any (fun p => p.1 == k) then
    m.map (fun p => if p.1 == k then (k, v) else p)
  else
    m ++ [(k, v)]

/-- Insertion-ordered key list of the modelled Map. -/
def mapKeys (m : List (Int × ℚ)) : List Int := m.map (·.1)

/-- buildDayMap (route.ts lines 83-92): normalise each timestamp to midnight
UTC and insert; later entries for the same day overwrite earlier ones. -/
def buildDayMap (raw : RawSeries) : List (Int × ℚ) :=
  raw.foldl (fun m p => mapSet m (dayTrunc p.1) p.2) []

/-- [...map.keys()].sort((a, b) => a - b): ascending stable sort. -/
def sortKeys (l : List Int) : List Int := List.insertionSort (· ≤ ·) l

/-- The while loop of lookupRP (route.ts lines 112-123), with fuel.
mid = (lo + hi) >> 1 is floor division by two, i.e. Int.fdiv. -/
def searchGo (ks : List Int) (target : Int) : Nat → Int → Int → Int → Int
  | 0, _, _, best => best
  | fuel + 1, lo, hi, best =>
    if lo ≤ hi then
      if ks.getD ((lo + hi).fdiv 2).toNat 0 ≤ target then
        searchGo ks target fuel ((lo + hi).fdiv 2 + 1) hi ((lo + hi).fdiv 2)
      else
        searchGo ks target fuel lo ((lo + hi).fdiv 2 - 1) best
    else best

/-- The binary search of lookupRP: lo = 0, hi = length - 1, best = -1. -/
def searchLoop (ks : List Int) (target lo hi best : Int) : Int :=
  searchGo ks target (hi + 1 - lo).toNat lo hi best

/-- lookupRP (route.ts lines 98-126): exact day hit, else binary search for
the greatest key at or before the truncated day, else null. -/
def lookupRP (dayMap : List (Int × ℚ)) (sortedKeys : List Int)
    (timestampMs : Int) : Option ℚ :=
  match mapGet dayMap (dayTrunc timestampMs) with
  | some v => some v
  | none =>
    let best := searchLoop sortedKeys (dayTrunc timestampMs) 0
      ((sortedKeys.length : Int) - 1) (-1)
    if 0 ≤ best then mapGet dayMap (sortedKeys.getD best.toNat 0) else none

/-- A CompositeRecord of the output sequence (the object literal of
route.ts lines 189-200 and 232-243). -/
structure Record where
  date : Int
  price : Int
  rp : Int
  rp_0_8 : Int
  rp_1_25 : Int
  rp_1_7 : Int
  rp_2_4 : Int
  rp_3_2 : Int
  sth_rp : Option Int
  lth_rp : Option Int
deriving DecidableEq

/-- JS truthiness guard `v ? Math.round(v) : null` used for the cohort
fields: null and 0 both collapse to null. -/
def optField (o : Option ℚ) : Option Int :=
  match o with
  | some v => if v ≠ 0 then some (jround v) else none
  | none => none

/-- Construction of one output record (route.ts lines 189-200; the live
point at lines 232-243 is the identical object literal). `rp` defaults to
0 when the lookup returned null (the `?? 0` at line 183). -/
def mkRecord (tsMs : Int) (y : ℚ) (rpOpt sthOpt lthOpt : Option ℚ) : Record :=
  let rp := rpOpt.getD 0
  { date := tsMs
    price := jround y
    rp := jround rp
    rp_0_8 := jround (rp * 0.8)
    rp_1_25 := jround (rp * 1.25)
    rp_1_7 := jround (rp * 1.7)
    rp_2_4 := jround (rp * 2.4)
    rp_3_2 := jround (rp * 3.2)
    sth_rp := optField sthOpt
    lth_rp := optField lthOpt }

/-- Date.UTC(2018, 0, 1) / 1000: the 2018-01-01T00:00:00Z cutoff in
unix seconds. -/
def startDate : Int := 1514764800

/-- The windowing filter (route.ts lines 168-170). -/
def filteredOf (historicalPrices : List HPoint) : List HPoint :=
  historicalPrices.filter (fun d => decide (startDate ≤ d.x) && decide (0 < d.y))

/-- filtered.filter((_, i) => i % 4 === 0): keep every 4th point by position. -/
def everyFourth (l : List HPoint) : List HPoint :=
  (l.enum.filter (fun p => p.1 % 4 == 0)).map (·.2)

/-- The resampling step (route.ts lines 171-178): stride sample, then
force-append the last filtered point when the stride missed its timestamp. -/
def sampleAndComplete (filtered : List HPoint) : List HPoint :=
  let sampled := everyFourth filtered
  match filtered.getLast?, sampled.getLast? with
  | some lastH, some lastS => if lastS.x ≠ lastH.x then sampled ++ [lastH] else sampled
  | _, _ => sampled

/-- sthMap / lthMap construction (route.ts lines 160-164): present only when
the raw cohort series is present and non-empty. -/
def mapOfOpt (raw : Option RawSeries) : Option (List (Int × ℚ)) :=
  match raw with
  | some l => if 0 < l.length then some (buildDayMap l) else none
  | none => none

/-- sthKeys / lthKeys construction (route.ts lines 161-164). -/
def keysOfOpt (m : Option (List (Int × ℚ))) : Option (List Int) :=
  match m with
  | some mm => if 0 < (mapKeys mm).length then some (sortKeys (mapKeys mm)) else none
  | none => none

/-- `sthMap && sthKeys ? lookupRP(sthMap, sthKeys, ts) : null` (lines 184-187). -/
def cohortLookup (m : Option (List (Int × ℚ))) (ks : Option (List Int))
    (ts : Int) : Option ℚ :=
  match m, ks with
  | some mm, some kk => lookupRP mm kk ts
  | _, _ => none

/-- rpKeys as computed in the route: sorted keys of the primary day map. -/
def rpKeysOf (prim : RawSeries) : List Int := sortKeys (mapKeys (buildDayMap prim))

/-- chartData construction (route.ts lines 156-201): build the lookup maps,
window, resample, and emit one record per kept historical point. -/
def mergePipeline (prim : RawSeries) (sthRaw lthRaw : Option RawSeries)
    (hist : List HPoint) : List Record :=
  let rpMap := buildDayMap prim
  let rpKeys := rpKeysOf prim
  let sthMap := mapOfOpt sthRaw
  let sthKeys := keysOfOpt sthMap
  let lthMap := mapOfOpt lthRaw
  let lthKeys := keysOfOpt lthMap
  let sampled := sampleAndComplete (filteredOf hist)
  sampled.map (fun d =>
    mkRecord (d.x * 1000) d.y
      (lookupRP rpMap rpKeys (d.x * 1000))
      (cohortLookup sthMap sthKeys (d.x * 1000))
      (cohortLookup lthMap lthKeys (d.x * 1000)))

/-- The live point (route.ts lines 226-243): rp falls back to the latest
known primary value when the lookup returns null; cohort lookups fall back
to the latest cohort values only when the cohort maps are absent. -/
def livePointOf (rpMap : List (Int × ℚ)) (rpKeys : List Int)
    (sthMap lthMap : Option (List (Int × ℚ))) (sthKeys lthKeys : Option (List Int))
    (latestRP : Int) (latestSTH latestLTH : Option Int)
    (now : Int) (p : ℚ) : Record :=
  let rp : ℚ := (lookupRP rpMap rpKeys now).getD (latestRP : ℚ)
  let sth : Option ℚ :=
    match sthMap, sthKeys with
    | some m, some ks => lookupRP m ks now
    | _, _ => latestSTH.map (fun i => (i : ℚ))
  let lth : Option ℚ :=
    match lthMap, lthKeys with
    | some m, some ks => lookupRP m ks now
    | _, _ => latestLTH.map (fun i => (i : ℚ))
  mkRecord now p (some rp) sth lth

/-- The live-tick reconciliation (route.ts lines 223-250).  The JS guard
`if (livePrice && chartData.length > 0)` is truthiness: a live price of 0
is treated exactly like an absent one. -/
def liveReconcile (rpMap : List (Int × ℚ)) (rpKeys : List Int)
    (sthMap lthMap : Option (List (Int × ℚ))) (sthKeys lthKeys : Option (List Int))
    (latestRP : Int) (latestSTH latestLTH : Option Int)
    (livePrice : Option ℚ) (now : Int) (chartData : List Record) : List Record :=
  match livePrice with
  | none => chartData
  | some p =>
    if p = 0 then chartData
    else
      match chartData.getLast? with
      | none => chartData
      | some lastRec =>
        let livePoint := livePointOf rpMap rpKeys sthMap lthMap sthKeys lthKeys
          latestRP latestSTH latestLTH now p
        if 43200000 < now - lastRec.date then chartData ++ [livePoint]
        else chartData.dropLast ++ [livePoint]

/-- currentPrice (route.ts lines 216-220): nullish-coalescing precedence
live price, else last filtered historical price, else last record price,
else zero. -/
def currentPriceModel (livePrice : Option ℚ) (lastHistorical : Option HPoint)
    (chartData : List Record) : ℚ :=
  match livePrice with
  | some p => p
  | none =>
    match lastHistorical with
    | some h => h.y
    | none =>
      match chartData.getLast? with
      | some r => (r.price : ℚ)
      | none => 0

/-- The successful response body (route.ts lines 252-263); the provenance
strings are constants and are omitted. -/
structure Response where
  data : List Record
  latestRP : Int
  latestRPDate : Int
  latestSTH : Option Int
  latestLTH : Option Int
  latestPrice : Int
  dataPoints : Nat
deriving DecidableEq

/-- Result of the GET operation: a response or an error (status, message)
with no data field. -/
inductive GETResult where
  | err (status : Nat) (msg : String)
  | ok (resp : Response)
deriving DecidableEq

/-- latestSTH / latestLTH (route.ts lines 208-213): rounded last value of a
cohort series when it is present and non-empty. -/
def latestCohortOf (raw : Option RawSeries) : Option Int :=
  match raw with
  | some l => if 0 < l.length then some (jround (l.getLastD ((0 : Int), (0 : ℚ))).2) else none
  | none => none

/-- Assembly of the successful response (route.ts lines 156-263 past the
gate). -/
def buildResponse (prim : RawSeries) (sthRaw lthRaw : Option RawSeries)
    (hist : List HPoint) (livePrice : Option ℚ) (now : Int) : Response :=
  let chartData := mergePipeline prim sthRaw lthRaw hist
  let latestRPEntry := prim.getLastD ((0 : Int), (0 : ℚ))
  let chartData2 := liveReconcile (buildDayMap prim) (rpKeysOf prim)
    (mapOfOpt sthRaw) (mapOfOpt lthRaw) (keysOfOpt (mapOfOpt sthRaw)) (keysOfOpt (mapOfOpt lthRaw))
    (jround latestRPEntry.2) (latestCohortOf sthRaw) (latestCohortOf lthRaw)
    livePrice now chartData
  { data := chartData2
    latestRP := jround latestRPEntry.2
    latestRPDate := latestRPEntry.1
    latestSTH := latestCohortOf sthRaw
    latestLTH := latestCohortOf lthRaw
    latestPrice := jround (currentPriceModel livePrice (filteredOf hist).getLast? chartData)
    dataPoints := chartData2.length }

/-- The GET handler (route.ts lines 130-263): the two hard-failure gates,
then the merge and reconcile pipeline.  Each fetcher argument is None when
the corresponding fetch failed. -/
def GET (realizedPriceRaw sthRPRaw lthRPRaw : Option RawSeries)
    (historicalPrices : Option (List HPoint)) (livePrice : Option ℚ)
    (now : Int) : GETResult :=
  match realizedPriceRaw with
  | none => .err 502 "Failed to fetch on-chain realized price data"
  | some prim =>
    if prim.length < 100 then .err 502 "Failed to fetch on-chain realized price data"
    else
      match historicalPrices with
      | none => .err 502 "Failed to fetch historical BTC price data"
      | some hist =>
        if hist.length < 100 then .err 502 "Failed to fetch historical BTC price data"
        else .ok (buildResponse prim sthRPRaw lthRPRaw hist livePrice now)

/-- The record list carried by a GET result (empty on error). -/
def recordsOf : GETResult → List Record
  | .ok r => r.data
  | .err _ _ => []

/-- Whether a GET result is a success. -/
def isOk : GETResult → Bool
  | .ok _ => true
  | .err _ _ => false

/-- The latestPrice scalar of a GET result. -/
def latestPriceOf : GETResult → Option Int
  | .ok r => some r.latestPrice
  | .err _ _ => none

/-- The first emitted record of a GET result. -/
def firstRecord? : GETResult → Option Record
  | .ok r => r.data.head?
  | .err _ _ => none

/-- Number of points of a fetched raw series (0 when the fetch failed). -/
def rawCount : Option RawSeries → Nat
  | none => 0
  | some l => l.length

/-- Number of points of the fetched historical series (0 when absent). -/
def histCount : Option (List HPoint) → Nat
  | none => 0
  | some l => l.length

/-- Number of distinct normalized UTC day-keys of a raw series. -/
def dayCountOf (raw : RawSeries) : Nat := (mapKeys (buildDayMap raw)).length

/-- A primary series of 100 raw points that all fall on the same UTC day. -/
def okPrimary : RawSeries := List.replicate 100 ((0 : Int), (20000 : ℚ))

/-- A historical series of 100 valid points on 2018-01-01. -/
def okHistorical : List HPoint := List.replicate 100 ⟨1514764800, 21000⟩

/-- A primary series of 100 raw points with value 1 on one day. -/
def onePrimary : RawSeries := List.replicate 100 ((0 : Int), (1 : ℚ))

/-! ### General helper lemmas -/

lemma jround_mono {a b : ℚ} (h : a ≤ b) : jround a ≤ jround b :=
  Int.floor_le_floor (by linarith)

lemma jround_lt {a b : ℚ} (h : a + 1 ≤ b) : jround a < jround b := by
  unfold jround
  have h1 : ⌊a + 1/2⌋ + 1 = ⌊a + 1/2 + 1⌋ := (Int.floor_add_one _).symm
  have h2 : ⌊a + 1/2 + 1⌋ ≤ ⌊b + 1/2⌋ := Int.floor_le_floor (by linarith)
  omega

lemma jround_pos_bound {r : ℚ} (h : 0 < jround r) : 1/2 ≤ r := by
  have h1 : (1 : ℤ) ≤ ⌊r + 1/2⌋ := h
  have h2 : ((1 : ℤ) : ℚ) ≤ r + 1/2 := Int.le_floor.mp h1
  push_cast at h2
  linarith

lemma jround_six_bound {r : ℚ} (h : 6 ≤ jround r) : 11/2 ≤ r := by
  have h2 : ((6 : ℤ) : ℚ) ≤ r + 1/2 := Int.le_floor.mp h
  push_cast at h2
  linarith

lemma fdiv2_bounds {lo hi : Int} (h1 : lo ≤ hi) (h2 : 0 ≤ lo) :
    lo ≤ (lo + hi).fdiv 2 ∧ (lo + hi).fdiv 2 ≤ hi := by
  have h3 := Int.fdiv_add_fmod (lo + hi) 2
  have h4 : 0 ≤ (lo + hi).fmod 2 := Int.fmod_nonneg (by omega) (by norm_num)
  have h5 : (lo + hi).fmod 2 < 2 := Int.fmod_lt_of_pos _ (by norm_num)
  omega

lemma getD_eq_get (l : List Int) {i : Nat} (h : i < l.length) :
    l.getD i 0 = l.get ⟨i, h⟩ := by
  rw [List.getD_eq_getElem?_getD, List.getElem?_eq_getElem h]
  rfl

lemma sorted_getD_le (ks : List Int) (hs : List.Sorted (· ≤ ·) ks) {i j : Nat}
    (hij : i ≤ j) (hj : j < ks.length) : ks.getD i 0 ≤ ks.getD j 0 := by
  rcases Nat.eq_or_lt_of_le hij with rfl | hlt
  · exact le_refl _
  · have hi : i < ks.length := lt_trans hlt hj
    rw [getD_eq_get _ hi, getD_eq_get _ hj]
    exact List.Sorted.rel_get_of_lt hs hlt

lemma mem_of_getLast? {α : Type} {l : List α} {a : α} (h : l.getLast? = some a) :
    a ∈ l := by
  obtain ⟨hne, h2⟩ := List.mem_getLast?_eq_getLast (show a ∈ l.getLast? from h)
  rw [h2]
  exact List.getLast_mem hne

lemma exists_getLast? {α : Type} {l : List α} (h : l ≠ []) :
    ∃ a, l.getLast? = some a := by
  cases hl : l.getLast? with
  | some a => exact ⟨a, rfl⟩
  | none => exact absurd (List.getLast?_eq_none_iff.mp hl) h

lemma snd_mem_of_mem_enumFrom {α : Type} :
    ∀ (l : List α) (n : Nat) (p : Nat × α), p ∈ l.enumFrom n → p.2 ∈ l := by
  intro l
  induction l with
  | nil => intro n p h; simp [List.enumFrom] at h
  | cons a t ih =>
    intro n p h
    rcases List.mem_cons.mp h with rfl | h2
    · exact List.mem_cons_self _ _
    · exact List.mem_cons_of_mem _ (ih (n + 1) p h2)

lemma mem_everyFourth {l : List HPoint} {a : HPoint} (h : a ∈ everyFourth l) :
    a ∈ l := by
  simp only [everyFourth, List.mem_map, List.mem_filter] at h
  obtain ⟨p, ⟨hmem, _⟩, hp⟩ := h
  rw [← hp]
  exact snd_mem_of_mem_enumFrom l 0 p hmem

lemma everyFourth_ne_nil {l : List HPoint} (h : l ≠ []) : everyFourth l ≠ [] := by
  cases l with
  | nil => exact absurd rfl h
  | cons a t =>
    have he : everyFourth (a :: t) =
        a :: ((t.enumFrom 1).filter (fun p => p.1 % 4 == 0)).map (·.2) := rfl
    simp [he]

lemma pairwise_x_inj {l : List HPoint} (hp : l.Pairwise (fun a b => a.x < b.x))
    {a b : HPoint} (ha : a ∈ l) (hb : b ∈ l) (hx : a.x = b.x) : a = b := by
  induction l with
  | nil => simp at ha
  | cons c t ih =>
    rw [List.pairwise_cons] at hp
    obtain ⟨hc, ht⟩ := hp
    rcases List.mem_cons.mp ha with rfl | ha2
    · rcases List.mem_cons.mp hb with rfl | hb2
      · rfl
      · exact absurd hx (by have := hc b hb2; omega)
    · rcases List.mem_cons.mp hb with rfl | hb2
      · exact absurd hx.symm (by have := hc a ha2; omega)
      · exact ih ht ha2 hb2

/-! ### Claim C6: windowing -/

/-- C6: the windowing filter keeps exactly the input points whose timestamp
(in unix seconds) is at least 2018-01-01T00:00:00Z (epoch 1514764800) and
whose value is positive; every point failing either condition is excluded
and no point satisfying both is dropped. -/
theorem windowing_exact (hist : List HPoint) (p : HPoint) :
    p ∈ filteredOf hist ↔ p ∈ hist ∧ 1514764800 ≤ p.x ∧ 0 < p.y := by
  simp [filteredOf, List.mem_filter, startDate, and_assoc]

/-- Witness for C6 at a concrete list: a conforming point is kept. -/
theorem windowing_exact_witness :
    (⟨1514764800, 1⟩ : HPoint) ∈ filteredOf [⟨1514764800, 1⟩, ⟨0, 5⟩, ⟨1514764801, 0⟩] :=
  (windowing_exact _ _).mpr ⟨by decide, by decide, by decide⟩

/-! ### Claim C9: cohort value 0 collapses to absence -/

/-- C9: in the record constructor shared by the merge step and the live-tick
candidate, a cohort lookup that returns the present value 0 produces a null
cohort field, and the resulting record is identical to the one produced when
the cohort source is absent; a consumer cannot distinguish the two. -/
theorem cohort_zero_is_absent (ts : Int) (y : ℚ) (rpOpt o : Option ℚ) :
    (mkRecord ts y rpOpt (some 0) o).sth_rp = none
    ∧ mkRecord ts y rpOpt (some 0) o = mkRecord ts y rpOpt none o
    ∧ (mkRecord ts y rpOpt o (some 0)).lth_rp = none
    ∧ mkRecord ts y rpOpt o (some 0) = mkRecord ts y rpOpt o none := by
  refine ⟨?_, ?_, ?_, ?_⟩ <;> simp [mkRecord, optField]

/-! ### Claim C2: the hard-failure gate -/

/-- C2 (amended): the gate counts raw points, not normalized days: with
fewer than 100 raw primary points (or an absent primary series) the
operation fails with the realized-price error, and with a primary series of
at least 100 raw points but fewer than 100 historical points (or an absent
historical series) it fails with the historical-price error; in both cases
no data field is produced. -/
theorem gate_on_raw_counts (prim sth lth : Option RawSeries)
    (hist : Option (List HPoint)) (lp : Option ℚ) (now : Int) :
    (rawCount prim < 100 →
      GET prim sth lth hist lp now = .err 502 "Failed to fetch on-chain realized price data")
    ∧ (∀ l, prim = some l → 100 ≤ l.length → histCount hist < 100 →
      GET prim sth lth hist lp now = .err 502 "Failed to fetch historical BTC price data") := by
  constructor
  · intro h
    cases prim with
    | none => rfl
    | some l =>
      simp only [rawCount] at h
      simp only [GET]
      rw [if_pos h]
  · intro l hl h100 hh
    subst hl
    cases hist with
    | none =>
      simp only [GET]
      rw [if_neg (by omega)]
    | some hl2 =>
      simp only [histCount] at hh
      simp only [GET]
      rw [if_neg (by omega), if_pos hh]

/-- Witness for C2's amended gate at concrete inputs. -/
theorem gate_on_raw_counts_witness :
    GET none none none none none 0 = .err 502 "Failed to fetch on-chain realized price data"
    ∧ GET (some okPrimary) none none none none 0
      = .err 502 "Failed to fetch historical BTC price data" :=
  ⟨(gate_on_raw_counts none none none none none 0).1 (by decide),
   (gate_on_raw_counts (some okPrimary) none none none none 0).2 okPrimary rfl
     (by decide) (by decide)⟩

/-- Counterexample to C2 as stated: a primary series of 100 raw points that
all fall on one UTC day has only 1 normalized day (far below 100), yet the
operation succeeds and returns a merged sequence instead of failing. -/
theorem gate_cex_normalized_days :
    dayCountOf okPrimary = 1
    ∧ dayCountOf okPrimary < 100
    ∧ isOk (GET (some okPrimary) none none (some okHistorical) none 0) = true :=
  ⟨by decide, by decide, by decide⟩

/-! ### Claim C7: the end-to-end example -/

/-- Counterexample to C7 as stated: with the two-day primary series and the
two historical points of the example, the operation does not succeed; both
series have fewer than 100 points, so the coverage gate rejects them. -/
theorem example_rejected_by_gate :
    GET (some [((1514764800000 : Int), (20000 : ℚ)), (1515628800000, 22000)]) none none
      (some [⟨1514764800, 21000⟩, ⟨1515628800, 23500⟩]) none 0
    = .err 502 "Failed to fetch on-chain realized price data" := by decide

/-- C7 (amended): the merge pipeline downstream of the gate, applied to the
example inputs (primary days day0 = 2018-01-01 with value 20000 and
day10 with value 22000; historical prices 21000 at day0 and 23500 at day10,
no cohort data, no live tick), produces exactly the two CompositeRecords of
the example. -/
theorem example_merge_records :
    mergePipeline [((1514764800000 : Int), (20000 : ℚ)), (1515628800000, 22000)] none none
      [⟨1514764800, 21000⟩, ⟨1515628800, 23500⟩]
    = [{ date := 1514764800000, price := 21000, rp := 20000, rp_0_8 := 16000,
         rp_1_25 := 25000, rp_1_7 := 34000, rp_2_4 := 48000, rp_3_2 := 64000,
         sth_rp := none, lth_rp := none },
       { date := 1515628800000, price := 23500, rp := 22000, rp_0_8 := 17600,
         rp_1_25 := 27500, rp_1_7 := 37400, rp_2_4 := 52800, rp_3_2 := 70400,
         sth_rp := none, lth_rp := none }] := by
  have h : mergePipeline [((1514764800000 : Int), (20000 : ℚ)), (1515628800000, 22000)] none none
      [⟨1514764800, 21000⟩, ⟨1515628800, 23500⟩]
      = [mkRecord 1514764800000 21000 (some 20000) none none,
         mkRecord 1515628800000 23500 (some 22000) none none] := rfl
  rw [h]
  simp only [mkRecord, optField, jround, Option.getD_some]
  norm_num

/-! ### Claim C5: live-tick replace-or-append -/

/-- C5 (amended): with a non-empty merged sequence and an available nonzero
live price, the reconciler appends the candidate record when now is more
than 12 hours past the last record's date and otherwise overwrites the last
record in place, leaving all earlier records unchanged; with no live price
the sequence is returned unchanged. -/
theorem live_tick_replace_or_append
    (rpMap : List (Int × ℚ)) (rpKeys : List Int)
    (sthMap lthMap : Option (List (Int × ℚ))) (sthKeys lthKeys : Option (List Int))
    (latestRP : Int) (latestSTH latestLTH : Option Int)
    (now : Int) (data : List Record) (p : ℚ) (lastRec : Record)
    (hlast : data.getLast? = some lastRec) (hp : p ≠ 0) :
    (liveReconcile rpMap rpKeys sthMap lthMap sthKeys lthKeys latestRP latestSTH latestLTH
        none now data = data)
    ∧ (43200000 < now - lastRec.date →
        liveReconcile rpMap rpKeys sthMap lthMap sthKeys lthKeys latestRP latestSTH latestLTH
          (some p) now data
        = data ++ [livePointOf rpMap rpKeys sthMap lthMap sthKeys lthKeys
            latestRP latestSTH latestLTH now p])
    ∧ (¬ 43200000 < now - lastRec.date →
        liveReconcile rpMap rpKeys sthMap lthMap sthKeys lthKeys latestRP latestSTH latestLTH
          (some p) now data
        = data.dropLast ++ [livePointOf rpMap rpKeys sthMap lthMap sthKeys lthKeys
            latestRP latestSTH latestLTH now p]) := by
  refine ⟨rfl, ?_, ?_⟩ <;> intro h <;>
    · simp only [liveReconcile, hlast]
      rw [if_neg hp]
      first
        | rw [if_pos h]
        | rw [if_neg h]

/-- A one-record merged sequence used to exercise the reconciler. -/
def wData : List Record := [mkRecord 0 100 none none none]

/-- Witness for C5 at concrete inputs: a tick 13.9 hours after the last
record date appends, a tick shortly after replaces, absence leaves the
sequence unchanged. -/
theorem live_tick_witness :
    liveReconcile [] [] none none none none 0 none none (some 5) 50000000 wData
      = wData ++ [livePointOf [] [] none none none none 0 none none 50000000 5]
    ∧ liveReconcile [] [] none none none none 0 none none (some 5) 1000 wData
      = wData.dropLast ++ [livePointOf [] [] none none none none 0 none none 1000 5]
    ∧ liveReconcile [] [] none none none none 0 none none none 1000 wData = wData :=
  ⟨(live_tick_replace_or_append [] [] none none none none 0 none none 50000000 wData 5
      (mkRecord 0 100 none none none) rfl (by decide)).2.1 (by decide),
   (live_tick_replace_or_append [] [] none none none none 0 none none 1000 wData 5
      (mkRecord 0 100 none none none) rfl (by decide)).2.2 (by decide),
   (live_tick_replace_or_append [] [] none none none none 0 none none 1000 wData 5
      (mkRecord 0 100 none none none) rfl (by decide)).1⟩

/-- Counterexample to C5 as stated: a live price of 0 is an available
observation, and 50000000 ms is more than 12 hours past the last record
date 0, yet the sequence is returned unchanged (length stays 1 instead of
growing to 2): the JS truthiness guard treats a zero price as absent. -/
theorem live_tick_zero_price_cex :
    liveReconcile [] [] none none none none 0 none none (some 0) 50000000 wData = wData
    ∧ (liveReconcile [] [] none none none none 0 none none (some 0) 50000000 wData).length = 1 :=
  ⟨rfl, rfl⟩

/-! ### Counterexamples for C3 and C4 -/

/-- Counterexample to C3 as stated: when the looked-up realized price is 1,
the first emitted record has rp = 1 > 0 but rp_0_8 = round(0.8) = 1, so the
strict chain rp_0_8 < rp fails. -/
theorem band_chain_cex :
    firstRecord? (GET (some onePrimary) none none (some okHistorical) none 0)
      = some (mkRecord 1514764800000 21000 (some 1) none none)
    ∧ 0 < (mkRecord 1514764800000 21000 (some 1) none none).rp
    ∧ ¬ ((mkRecord 1514764800000 21000 (some 1) none none).rp_0_8
        < (mkRecord 1514764800000 21000 (some 1) none none).rp) := by
  refine ⟨rfl, ?_, ?_⟩ <;>
    · simp only [mkRecord, Option.getD_some, jround]
      norm_num

/-- Counterexample to C4 as stated: with two filtered points sharing a
timestamp, the stride keeps only the first, the append guard compares
timestamps and is not triggered, and the chronologically last filtered point
is not in the output at all. -/
theorem resample_cex :
    sampleAndComplete [⟨1514764800, 5⟩, ⟨1514764800, 7⟩] = [⟨1514764800, 5⟩]
    ∧ (⟨1514764800, 7⟩ : HPoint) ∉ sampleAndComplete [⟨1514764800, 5⟩, ⟨1514764800, 7⟩]
    ∧ [⟨1514764800, (5 : ℚ)⟩, ⟨1514764800, 7⟩].getLast? = some (⟨1514764800, 7⟩ : HPoint) :=
  ⟨by decide, by decide, by decide⟩

/-! ### Binary search correctness -/

lemma searchGo_terminal (ks : List Int) (target : Int) (lo hi best : Int)
    (h0 : 0 ≤ lo) (hlen : hi < (ks.length : Int)) (hbest : best = lo - 1)
    (hterm : lo = hi + 1)
    (hA : ∀ i : Nat, (i : Int) < lo → ks.getD i 0 ≤ target)
    (hB : ∀ i : Nat, hi < (i : Int) → i < ks.length → target < ks.getD i 0) :
    (best = -1 ∧ ∀ i : Nat, i < ks.length → target < ks.getD i 0)
    ∨ (0 ≤ best ∧ best < (ks.length : Int)
      ∧ ks.getD best.toNat 0 ≤ target
      ∧ ∀ i : Nat, best < (i : Int) → i < ks.length → target < ks.getD i 0) := by
  by_cases hl0 : lo = 0
  · left
    refine ⟨by omega, fun i hi2 => hB i (by omega) hi2⟩
  · right
    refine ⟨by omega, by omega, ?_, fun i hgt hi2 => hB i (by omega) hi2⟩
    exact hA best.toNat (by omega)

lemma searchGo_spec (ks : List Int) (target : Int)
    (hs : List.Sorted (· ≤ ·) ks) :
    ∀ (fuel : Nat) (lo hi best : Int),
      (hi + 1 - lo).toNat ≤ fuel →
      0 ≤ lo → lo ≤ hi + 1 → hi < (ks.length : Int) →
      best = lo - 1 →
      (∀ i : Nat, (i : Int) < lo → ks.getD i 0 ≤ target) →
      (∀ i : Nat, hi < (i : Int) → i < ks.length → target < ks.getD i 0) →
      (searchGo ks target fuel lo hi best = -1
        ∧ ∀ i : Nat, i < ks.length → target < ks.getD i 0)
      ∨ (0 ≤ searchGo ks target fuel lo hi best
        ∧ searchGo ks target fuel lo hi best < (ks.length : Int)
        ∧ ks.getD (searchGo ks target fuel lo hi best).toNat 0 ≤ target
        ∧ ∀ i : Nat, searchGo ks target fuel lo hi best < (i : Int) → i < ks.length →
            target < ks.getD i 0) := by
  intro fuel
  induction fuel with
  | zero =>
    intro lo hi best hf h0 hle hlen hbest hA hB
    simp only [searchGo]
    exact searchGo_terminal ks target lo hi best h0 hlen hbest (by omega) hA hB
  | succ n ih =>
    intro lo hi best hf h0 hle hlen hbest hA hB
    by_cases hcond : lo ≤ hi
    · have hmid := fdiv2_bounds hcond h0
      simp only [searchGo]
      rw [if_pos hcond]
      by_cases hk : ks.getD ((lo + hi).fdiv 2).toNat 0 ≤ target
      · rw [if_pos hk]
        apply ih
        · omega
        · omega
        · omega
        · exact hlen
        · omega
        · intro i hilt
          have h1 : i ≤ ((lo + hi).fdiv 2).toNat := by omega
          have h2 : ((lo + hi).fdiv 2).toNat < ks.length := by omega
          exact le_trans (sorted_getD_le ks hs h1 h2) hk
        · exact hB
      · rw [if_neg hk]
        apply ih
        · omega
        · exact h0
        · omega
        · omega
        · exact hbest
        · exact hA
        · intro i hgt hi2
          have h1 : ((lo + hi).fdiv 2).toNat ≤ i := by omega
          exact lt_of_lt_of_le (not_le.mp hk) (sorted_getD_le ks hs h1 hi2)
    · simp only [searchGo]
      rw [if_neg hcond]
      exact searchGo_terminal ks target lo hi best h0 hlen hbest (by omega) hA hB

lemma searchGo_bounds (ks : List Int) (target : Int) :
    ∀ (fuel : Nat) (lo hi best : Int), 0 ≤ lo → hi < (ks.length : Int) →
      (0 ≤ best → best < (ks.length : Int)) →
      (0 ≤ searchGo ks target fuel lo hi best →
        searchGo ks target fuel lo hi best < (ks.length : Int)) := by
  intro fuel
  induction fuel with
  | zero =>
    intro lo hi best h0 hlen hbest
    simpa only [searchGo] using hbest
  | succ n ih =>
    intro lo hi best h0 hlen hbest
    by_cases hcond : lo ≤ hi
    · have hmid := fdiv2_bounds hcond h0
      simp only [searchGo]
      rw [if_pos hcond]
      by_cases hk : ks.getD ((lo + hi).fdiv 2).toNat 0 ≤ target
      · rw [if_pos hk]
        exact ih _ _ _ (by omega) hlen (fun _ => by omega)
      · rw [if_neg hk]
        exact ih _ _ _ h0 (by omega) hbest
    · simp only [searchGo]
      rw [if_neg hcond]
      exact hbest

lemma mapGet_isSome_iff (m : List (Int × ℚ)) (k : Int) :
    (mapGet m k).isSome = true ↔ k ∈ mapKeys m := by
  simp [mapGet, List.find?_isSome, mapKeys, List.mem_map, beq_iff_eq]

/-! ### Claim C1: forward-fill correctness of lookupRP -/

/-- C1: for any day map built from a raw primary series, with its ascending
key list, and any query timestamp t: if the i-th sorted key is at most the
UTC-day truncation of t and every later key is strictly greater, lookupRP
returns exactly the value stored at that key (whether the truncated day is
an exact key or found by the binary search); and if the truncated day lies
strictly before every key, lookupRP returns absence. -/
theorem lookupRP_forward_fill (prim : RawSeries) (t : Int) :
    (∀ i : Nat, i < (rpKeysOf prim).length →
      (rpKeysOf prim).getD i 0 ≤ dayTrunc t →
      (∀ j : Nat, i < j → j < (rpKeysOf prim).length →
        dayTrunc t < (rpKeysOf prim).getD j 0) →
      lookupRP (buildDayMap prim) (rpKeysOf prim) t
          = mapGet (buildDayMap prim) ((rpKeysOf prim).getD i 0)
        ∧ (mapGet (buildDayMap prim) ((rpKeysOf prim).getD i 0)).isSome = true)
    ∧ ((∀ k, k ∈ mapKeys (buildDayMap prim) → dayTrunc t < k) →
      lookupRP (buildDayMap prim) (rpKeysOf prim) t = none) := by
  set m := buildDayMap prim with hm
  set ks := rpKeysOf prim with hks
  have hsort : List.Sorted (· ≤ ·) ks :=
    List.sorted_insertionSort (· ≤ ·) (mapKeys (buildDayMap prim))
  have hperm : List.Perm ks (mapKeys m) :=
    List.perm_insertionSort (· ≤ ·) (mapKeys (buildDayMap prim))
  have hsl : searchLoop ks (dayTrunc t) 0 ((ks.length : Int) - 1) (-1)
      = searchGo ks (dayTrunc t) ((((ks.length : Int) - 1) + 1 - 0).toNat) 0
        ((ks.length : Int) - 1) (-1) := rfl
  constructor
  · intro i hi hle hgt
    have hmem_i : ks.getD i 0 ∈ mapKeys m := by
      refine hperm.mem_iff.mp ?_
      rw [getD_eq_get _ hi]
      exact List.get_mem ks i hi
    have hsome_i : (mapGet m (ks.getD i 0)).isSome = true :=
      (mapGet_isSome_iff _ _).mpr hmem_i
    refine ⟨?_, hsome_i⟩
    cases hx : mapGet m (dayTrunc t) with
    | some v =>
      have hlook : lookupRP m ks t = some v := by
        unfold lookupRP
        rw [hx]
      have hmemk : dayTrunc t ∈ mapKeys m := by
        refine (mapGet_isSome_iff _ _).mp ?_
        rw [hx]
        rfl
      have hmemks : dayTrunc t ∈ ks := hperm.mem_iff.mpr hmemk
      obtain ⟨⟨p, hp⟩, hpe⟩ := List.mem_iff_get.mp hmemks
      have heq : ks.getD i 0 = dayTrunc t := by
        rcases le_or_lt p i with hpi | hip
        · have h1 : ks.getD p 0 ≤ ks.getD i 0 := sorted_getD_le ks hsort hpi hi
          have h2 : ks.getD p 0 = dayTrunc t := by
            rw [getD_eq_get _ hp]
            exact hpe
          omega
        · exfalso
          have h3 := hgt p hip hp
          rw [getD_eq_get _ hp, hpe] at h3
          omega
      rw [hlook, heq, hx]
    | none =>
      have hlook : lookupRP m ks t
          = if 0 ≤ searchLoop ks (dayTrunc t) 0 ((ks.length : Int) - 1) (-1)
            then mapGet m (ks.getD (searchLoop ks (dayTrunc t) 0
              ((ks.length : Int) - 1) (-1)).toNat 0)
            else none := by
        unfold lookupRP
        rw [hx]
      have hspec := searchGo_spec ks (dayTrunc t) hsort
        ((((ks.length : Int) - 1) + 1 - 0).toNat) 0 ((ks.length : Int) - 1) (-1)
        (le_refl _) (le_refl 0) (by omega) (by omega) (by omega)
        (fun i2 hilt => False.elim (by omega))
        (fun j h1 h2 => False.elim (by omega))
      rcases hspec with ⟨hneg, hall⟩ | ⟨h0r, hrlen, hrle, hrgt⟩
      · exfalso
        exact absurd hle (not_le.mpr (hall i hi))
      · have hri : (searchGo ks (dayTrunc t) ((((ks.length : Int) - 1) + 1 - 0).toNat) 0
            ((ks.length : Int) - 1) (-1)).toNat = i := by
          rcases lt_trichotomy (searchGo ks (dayTrunc t)
              ((((ks.length : Int) - 1) + 1 - 0).toNat) 0
              ((ks.length : Int) - 1) (-1)).toNat i with hlt | heq | hgt2
          · exact absurd hle (not_le.mpr (hrgt i (by omega) hi))
          · exact heq
          · exfalso
            have h4 := hgt _ hgt2 (by omega)
            omega
        rw [hlook, hsl, if_pos h0r, hri]
  · intro hall
    cases hx : mapGet m (dayTrunc t) with
    | some v =>
      exfalso
      have hmemk : dayTrunc t ∈ mapKeys m := by
        refine (mapGet_isSome_iff _ _).mp ?_
        rw [hx]
        rfl
      have h5 := hall _ hmemk
      omega
    | none =>
      have hlook : lookupRP m ks t
          = if 0 ≤ searchLoop ks (dayTrunc t) 0 ((ks.length : Int) - 1) (-1)
            then mapGet m (ks.getD (searchLoop ks (dayTrunc t) 0
              ((ks.length : Int) - 1) (-1)).toNat 0)
            else none := by
        unfold lookupRP
        rw [hx]
      have hspec := searchGo_spec ks (dayTrunc t) hsort
        ((((ks.length : Int) - 1) + 1 - 0).toNat) 0 ((ks.length : Int) - 1) (-1)
        (le_refl _) (le_refl 0) (by omega) (by omega) (by omega)
        (fun i2 hilt => False.elim (by omega))
        (fun j h1 h2 => False.elim (by omega))
      rcases hspec with ⟨hneg, _⟩ | ⟨h0r, hrlen, hrle, _⟩
      · rw [hlook, hsl, hneg, if_neg (by norm_num)]
      · exfalso
        have hmem2 : ks.getD (searchGo ks (dayTrunc t)
            ((((ks.length : Int) - 1) + 1 - 0).toNat) 0
            ((ks.length : Int) - 1) (-1)).toNat 0 ∈ mapKeys m := by
          refine hperm.mem_iff.mp ?_
          rw [getD_eq_get _ (show (searchGo ks (dayTrunc t)
            ((((ks.length : Int) - 1) + 1 - 0).toNat) 0
            ((ks.length : Int) - 1) (-1)).toNat < ks.length by omega)]
          exact List.get_mem _ _ _
        have h6 := hall _ hmem2
        omega

/-- Witness for C1: a query five milliseconds into day 3 resolves to the
value stored at day 0 (keys are day 0 and day 10), and a query before all
keys returns absence. -/
theorem lookupRP_forward_fill_witness :
    lookupRP (buildDayMap [((0 : Int), (10 : ℚ)), (864000000, 20)])
        (rpKeysOf [((0 : Int), (10 : ℚ)), (864000000, 20)]) 259200005
      = mapGet (buildDayMap [((0 : Int), (10 : ℚ)), (864000000, 20)])
          ((rpKeysOf [((0 : Int), (10 : ℚ)), (864000000, 20)]).getD 0 0)
    ∧ lookupRP (buildDayMap [((0 : Int), (10 : ℚ)), (864000000, 20)])
        (rpKeysOf [((0 : Int), (10 : ℚ)), (864000000, 20)]) (-5) = none := by
  constructor
  · refine ((lookupRP_forward_fill [((0 : Int), (10 : ℚ)), (864000000, 20)] 259200005).1 0
      (by decide) (by decide) ?_).1
    intro j h1 h2
    have hlen : (rpKeysOf [((0 : Int), (10 : ℚ)), (864000000, 20)]).length = 2 := by decide
    have hj : j = 1 := by omega
    subst hj
    decide
  · refine (lookupRP_forward_fill [((0 : Int), (10 : ℚ)), (864000000, 20)] (-5)).2 ?_
    intro k hk
    have h0 : mapKeys (buildDayMap [((0 : Int), (10 : ℚ)), (864000000, 20)])
        = [0, 864000000] := by decide
    rw [h0] at hk
    simp only [List.mem_cons, List.mem_singleton, List.not_mem_nil, or_false] at hk
    rcases hk with rfl | rfl <;> decide

/-! ### Claim C10: lookup totality and in-bounds safety -/

/-- C10: for every day map, key list and timestamp, the binary search of
lookupRP selects only in-bounds indices (whenever its result is
nonnegative, it is a valid index of sortedKeys), and when sortedKeys is
empty and the truncated day is not an exact key, lookupRP returns null;
lookupRP itself is a total function by construction. -/
theorem lookupRP_safety (m : List (Int × ℚ)) (ks : List Int) (t : Int) :
    (0 ≤ searchLoop ks (dayTrunc t) 0 ((ks.length : Int) - 1) (-1) →
      (searchLoop ks (dayTrunc t) 0 ((ks.length : Int) - 1) (-1)).toNat < ks.length)
    ∧ (ks = [] → mapGet m (dayTrunc t) = none → lookupRP m ks t = none) := by
  constructor
  · intro h
    have hsl : searchLoop ks (dayTrunc t) 0 ((ks.length : Int) - 1) (-1)
        = searchGo ks (dayTrunc t) ((((ks.length : Int) - 1) + 1 - 0).toNat) 0
          ((ks.length : Int) - 1) (-1) := rfl
    have hb := searchGo_bounds ks (dayTrunc t)
      ((((ks.length : Int) - 1) + 1 - 0).toNat) 0 ((ks.length : Int) - 1) (-1)
      (le_refl 0) (by omega) (fun h2 => absurd h2 (by norm_num))
    rw [hsl] at h ⊢
    have h3 := hb h
    omega
  · intro hks hx
    subst hks
    unfold lookupRP
    rw [hx]
    rfl

/-- Witness for C10: a concrete two-key search lands in bounds, and the
empty-keys lookup returns absence. -/
theorem lookupRP_safety_witness :
    (searchLoop [0, 5] (dayTrunc 3) 0 (((([0, 5] : List Int).length : Int)) - 1) (-1)).toNat
      < ([0, 5] : List Int).length
    ∧ lookupRP [] [] 5 = none :=
  ⟨(lookupRP_safety [] [0, 5] 3).1 (by decide),
   (lookupRP_safety [] [] 5).2 rfl (by decide)⟩

/-! ### Emission shape of output records -/

lemma mem_liveReconcile (rpMap : List (Int × ℚ)) (rpKeys : List Int)
    (sthMap lthMap : Option (List (Int × ℚ))) (sthKeys lthKeys : Option (List Int))
    (latestRP : Int) (latestSTH latestLTH : Option Int)
    (lp : Option ℚ) (now : Int) (data : List Record) (rec : Record)
    (h : rec ∈ liveReconcile rpMap rpKeys sthMap lthMap sthKeys lthKeys latestRP
      latestSTH latestLTH lp now data) :
    rec ∈ data ∨ ∃ ts y rpOpt sOpt lOpt, rec = mkRecord ts y rpOpt sOpt lOpt := by
  cases lp with
  | none => exact Or.inl h
  | some p =>
    simp only [liveReconcile] at h
    by_cases hp : p = 0
    · rw [if_pos hp] at h
      exact Or.inl h
    · rw [if_neg hp] at h
      cases hl : data.getLast? with
      | none =>
        simp only [hl] at h
        exact Or.inl h
      | some lastRec =>
        simp only [hl] at h
        by_cases hc : 43200000 < now - lastRec.date
        · rw [if_pos hc] at h
          rcases List.mem_append.mp h with h2 | h2
          · exact Or.inl h2
          · right
            simp only [List.mem_singleton] at h2
            exact ⟨now, p, _, _, _, h2⟩
        · rw [if_neg hc] at h
          rcases List.mem_append.mp h with h2 | h2
          · exact Or.inl ((List.dropLast_sublist data).subset h2)
          · right
            simp only [List.mem_singleton] at h2
            exact ⟨now, p, _, _, _, h2⟩

lemma mem_recordsOf_mkRecord (p s l : Option RawSeries) (hOpt : Option (List HPoint))
    (lp : Option ℚ) (now : Int) (rec : Record)
    (hm : rec ∈ recordsOf (GET p s l hOpt lp now)) :
    ∃ ts y rpOpt sOpt lOpt, rec = mkRecord ts y rpOpt sOpt lOpt := by
  cases p with
  | none => simp [GET, recordsOf] at hm
  | some prim =>
    by_cases h1 : prim.length < 100
    · simp only [GET] at hm
      rw [if_pos h1] at hm
      simp [recordsOf] at hm
    · cases hOpt with
      | none =>
        simp only [GET] at hm
        rw [if_neg h1] at hm
        simp [recordsOf] at hm
      | some hist =>
        by_cases h2 : hist.length < 100
        · simp only [GET] at hm
          rw [if_neg h1, if_pos h2] at hm
          simp [recordsOf] at hm
        · simp only [GET] at hm
          rw [if_neg h1, if_neg h2] at hm
          have hdata : recordsOf (.ok (buildResponse prim s l hist lp now))
              = liveReconcile (buildDayMap prim) (rpKeysOf prim)
                (mapOfOpt s) (mapOfOpt l) (keysOfOpt (mapOfOpt s)) (keysOfOpt (mapOfOpt l))
                (jround (prim.getLastD ((0 : Int), (0 : ℚ))).2)
                (latestCohortOf s) (latestCohortOf l)
                lp now (mergePipeline prim s l hist) := rfl
          rw [hdata] at hm
          rcases mem_liveReconcile _ _ _ _ _ _ _ _ _ _ _ _ _ hm with h3 | h3
          · simp only [mergePipeline, List.mem_map] at h3
            obtain ⟨d, _, hd⟩ := h3
            exact ⟨_, _, _, _, _, hd.symm⟩
          · exact h3

lemma head_mem_recordsOf (res : GETResult) (rec : Record)
    (h : firstRecord? res = some rec) : rec ∈ recordsOf res := by
  cases res with
  | err s m => simp [firstRecord?] at h
  | ok r =>
    simp only [firstRecord?] at h
    simp only [recordsOf]
    cases hd : r.data with
    | nil =>
      rw [hd] at h
      simp at h
    | cons a t =>
      rw [hd] at h
      simp only [List.head?_cons, Option.some.injEq] at h
      rw [← h]
      exact List.mem_cons_self a t

/-! ### Claim C3: band monotonicity -/

/-- C3 (amended): every record emitted by the operation (merge step and
live-tick candidate alike) satisfies the non-strict chain
rp_0_8 ≤ rp ≤ rp_1_25 ≤ rp_1_7 ≤ rp_2_4 ≤ rp_3_2 whenever rp > 0, and the
strict chain rp_0_8 < rp < rp_1_25 < rp_1_7 < rp_2_4 < rp_3_2 whenever
rp ≥ 6; for small realized prices (e.g. an underlying value of 1, giving
rp = 1 = rp_0_8) independent rounding breaks the strict chain. -/
theorem band_monotonicity (p s l : Option RawSeries) (hOpt : Option (List HPoint))
    (lp : Option ℚ) (now : Int) (rec : Record)
    (hm : rec ∈ recordsOf (GET p s l hOpt lp now)) :
    (0 < rec.rp →
      rec.rp_0_8 ≤ rec.rp ∧ rec.rp ≤ rec.rp_1_25 ∧ rec.rp_1_25 ≤ rec.rp_1_7
        ∧ rec.rp_1_7 ≤ rec.rp_2_4 ∧ rec.rp_2_4 ≤ rec.rp_3_2)
    ∧ (6 ≤ rec.rp →
      rec.rp_0_8 < rec.rp ∧ rec.rp < rec.rp_1_25 ∧ rec.rp_1_25 < rec.rp_1_7
        ∧ rec.rp_1_7 < rec.rp_2_4 ∧ rec.rp_2_4 < rec.rp_3_2) := by
  obtain ⟨ts, y, rpOpt, sOpt, lOpt, rfl⟩ := mem_recordsOf_mkRecord p s l hOpt lp now rec hm
  simp only [mkRecord]
  constructor
  · intro hpos
    have hr : (1/2 : ℚ) ≤ rpOpt.getD 0 := jround_pos_bound hpos
    exact ⟨jround_mono (by linarith), jround_mono (by linarith), jround_mono (by linarith),
      jround_mono (by linarith), jround_mono (by linarith)⟩
  · intro h6
    have hr : (11/2 : ℚ) ≤ rpOpt.getD 0 := jround_six_bound h6
    exact ⟨jround_lt (by linarith), jround_lt (by linarith), jround_lt (by linarith),
      jround_lt (by linarith), jround_lt (by linarith)⟩

/-- Witness for C3: the first record of a successful aggregation with
realized price 20000 satisfies the strict chain. -/
theorem band_monotonicity_witness :
    (mkRecord 1514764800000 21000 (some (20000 : ℚ)) none none).rp_0_8
        < (mkRecord 1514764800000 21000 (some (20000 : ℚ)) none none).rp
    ∧ (mkRecord 1514764800000 21000 (some (20000 : ℚ)) none none).rp
        < (mkRecord 1514764800000 21000 (some (20000 : ℚ)) none none).rp_1_25
    ∧ (mkRecord 1514764800000 21000 (some (20000 : ℚ)) none none).rp_1_25
        < (mkRecord 1514764800000 21000 (some (20000 : ℚ)) none none).rp_1_7
    ∧ (mkRecord 1514764800000 21000 (some (20000 : ℚ)) none none).rp_1_7
        < (mkRecord 1514764800000 21000 (some (20000 : ℚ)) none none).rp_2_4
    ∧ (mkRecord 1514764800000 21000 (some (20000 : ℚ)) none none).rp_2_4
        < (mkRecord 1514764800000 21000 (some (20000 : ℚ)) none none).rp_3_2 := by
  have hmem : mkRecord 1514764800000 21000 (some (20000 : ℚ)) none none
      ∈ recordsOf (GET (some okPrimary) none none (some okHistorical) none 0) :=
    head_mem_recordsOf _ _ rfl
  exact (band_monotonicity (some okPrimary) none none (some okHistorical) none 0 _ hmem).2
    (by simp only [mkRecord, Option.getD_some]; norm_num [jround])

/-! ### Claim C4: resampling completeness -/

/-- C4 (amended): for every non-empty filtered sequence the resampled
output is the every-4th-by-position stride selection, possibly with the
last filtered point force-appended; it always ends in a point bearing the
timestamp of the chronologically last filtered point, and when the
timestamps are strictly increasing (no duplicate days) its final element
is the last filtered point itself.  With duplicate timestamps the guard
compares only timestamps and the last filtered point can be dropped. -/
theorem resample_completeness (filtered : List HPoint) (hne : filtered ≠ []) :
    ∃ lastH lastE, filtered.getLast? = some lastH
      ∧ (sampleAndComplete filtered).getLast? = some lastE
      ∧ lastE.x = lastH.x
      ∧ (sampleAndComplete filtered = everyFourth filtered
        ∨ sampleAndComplete filtered = everyFourth filtered ++ [lastH])
      ∧ (filtered.Pairwise (fun a b => a.x < b.x) →
          lastE = lastH ∧ (sampleAndComplete filtered).getLast? = filtered.getLast?) := by
  obtain ⟨lastH, hH⟩ := exists_getLast? hne
  obtain ⟨lastS, hS⟩ := exists_getLast? (everyFourth_ne_nil hne)
  simp only [sampleAndComplete, hH, hS]
  by_cases hxe : lastS.x ≠ lastH.x
  · rw [if_pos hxe]
    exact ⟨lastH, lastH, rfl, List.getLast?_concat _, rfl, Or.inr rfl,
      fun _ => ⟨rfl, List.getLast?_concat _⟩⟩
  · rw [if_neg hxe]
    push_neg at hxe
    refine ⟨lastH, lastS, rfl, hS, hxe, Or.inl rfl, fun hp => ?_⟩
    have heq : lastS = lastH :=
      pairwise_x_inj hp (mem_everyFourth (mem_of_getLast? hS)) (mem_of_getLast? hH) hxe
    refine ⟨heq, ?_⟩
    rw [hS, heq]

/-- Witness for C4: on a strictly increasing two-point sequence the
resampled output ends with the last filtered point. -/
theorem resample_completeness_witness :
    (sampleAndComplete [⟨1514764800, (1 : ℚ)⟩, ⟨1514764900, 2⟩]).getLast?
      = [⟨1514764800, (1 : ℚ)⟩, ⟨1514764900, 2⟩].getLast? := by
  obtain ⟨lH, lE, h1, h2, h3, h4, h5⟩ :=
    resample_completeness [⟨1514764800, (1 : ℚ)⟩, ⟨1514764900, 2⟩] (by decide)
  exact (h5 (by decide)).2

/-! ### Claim C8: current-price precedence -/

lemma jround_intCast (n : Int) : jround ((n : ℚ)) = n := by
  unfold jround
  rw [Int.floor_eq_iff]
  constructor <;> norm_num

/-- C8: the latestPrice scalar uses nullish-coalescing precedence: the live
price when the live fetch returned a value (even 0); else the last filtered
historical point's price when one exists; else the last merged record's
price when the sequence is non-empty; else zero — and the result is
rounded; and on every successful GET the returned latestPrice is exactly
this computation applied to the request's inputs. -/
theorem current_price_precedence :
    (∀ (lh : Option HPoint) (cd : List Record) (p : ℚ),
      jround (currentPriceModel (some p) lh cd) = jround p)
    ∧ (∀ (h : HPoint) (cd : List Record),
      jround (currentPriceModel none (some h) cd) = jround h.y)
    ∧ (∀ (cd : List Record) (r : Record), cd.getLast? = some r →
      jround (currentPriceModel none none cd) = r.price)
    ∧ jround (currentPriceModel none none []) = 0
    ∧ (∀ (prim : RawSeries) (s l : Option RawSeries) (hist : List HPoint)
        (lp : Option ℚ) (now : Int), 100 ≤ prim.length → 100 ≤ hist.length →
      latestPriceOf (GET (some prim) s l (some hist) lp now)
        = some (jround (currentPriceModel lp (filteredOf hist).getLast?
            (mergePipeline prim s l hist)))) := by
  refine ⟨fun lh cd p => rfl, fun h cd => rfl, ?_, ?_, ?_⟩
  · intro cd r hr
    simp only [currentPriceModel, hr]
    exact jround_intCast r.price
  · norm_num [currentPriceModel, jround]
  · intro prim s l hist lp now h1 h2
    simp only [GET]
    rw [if_neg (by omega), if_neg (by omega)]
    rfl

/-- Witness for C8: the live price takes precedence at a concrete input,
and a successful concrete GET returns exactly the modelled scalar. -/
theorem current_price_precedence_witness :
    jround (currentPriceModel (some 12345) none []) = jround 12345
    ∧ latestPriceOf (GET (some okPrimary) none none (some okHistorical) none 0)
      = some (jround (currentPriceModel none (filteredOf okHistorical).getLast?
          (mergePipeline okPrimary none none okHistorical))) :=
  ⟨current_price_precedence.1 none [] 12345,
   current_price_precedence.2.2.2.2 okPrimary none none okHistorical none 0
     (by decide) (by decide)⟩
